import Mathlib

/-!
Shallow embedding of the EMG fatigue-analysis pipeline of `app_emg.py`
(Bitalino OpenSignals analyzer).

Conventions of the embedding:
* Python floats are modelled by `ℚ` where the pipeline arithmetic is exact
  division/multiplication (calibration, baseline averaging, percentage
  changes, filter cutoff normalisation), and by `ℝ` where square roots and
  the Fourier transform appear (RMS, Welch power spectral density, MNF).
* Python `int`-valued quantities (`fs`, sample counts, window sizes) are `ℕ`;
  places where CPython would raise an exception are modelled by `Except`
  values or are guarded by explicit hypotheses in the theorems.
* The numeric cores of the two SciPy library routines whose outputs the
  claims never depend on — the Butterworth coefficient computation inside
  `scipy.signal.butter` and the zero-phase IIR application inside
  `scipy.signal.filtfilt` — are abstracted as parameters (`NumKernel`),
  together with their documented shape contracts (a band filter of order
  `n` has `2*n+1` taps; `filtfilt` preserves the signal length).  The
  validation guards of both routines (critical frequencies must lie in
  (0, 1); the signal must be longer than the default pad length
  `3 * max(len(a), len(b))`) are embedded concretely, since the
  error-handling claims are about exactly those guards.
-/

namespace EmgApp

/-! ### Calibration (`convert_to_mv`, line 25-28) -/

/-- Bitalino ADC-count → millivolt conversion, line 28 of the source:
`((raw / (2**n_bits)) - 0.5) * vcc * 1000 / gain`.  Defaults in the source
are `vcc = 3.3`, `gain = 1000`; here they are always passed explicitly. -/
def convert_to_mv (raw : ℚ) (n_bits : ℕ) (vcc gain : ℚ) : ℚ :=
  ((raw / (2 ^ n_bits)) - 1/2) * vcc * 1000 / gain

/-- Line 86: `df['emg_mv'] = convert_to_mv(df['emg_raw'], resolution_bits)` —
the conversion applied elementwise to the raw-count column, with the
source's default `vcc = 3.3` and `gain = 1000`. -/
def calibrateSeries (raws : List ℚ) (bits : ℕ) : List ℚ :=
  raws.map (fun r => convert_to_mv r bits (33/10) 1000)

/-! ### Windowing (lines 70-71 and 96) -/

/-- Python `range(0, stop, step)` for `step > 0` (for `step = 0` CPython
raises `ValueError`; theorems about windowing therefore carry a
`0 < step`-style hypothesis and this total function returns `[]` there). -/
def pyRange (stop step : ℕ) : List ℕ :=
  (List.range ((stop + step - 1) / step)).map (fun k => k * step)

/-- Window start indices of the feature loop, line 96:
`range(0, len(df) - win_size + 1, step)`.  The subtraction is over Python
ints, so the range is empty whenever `N < win_size`; the guard reproduces
that exactly over `ℕ`. -/
def windowStarts (N win_size step : ℕ) : List ℕ :=
  pyRange (if win_size ≤ N then N - win_size + 1 else 0) step

/-! ### Baseline (lines 109-117) -/

/-- Python `int()` applied to a rational value: truncation toward zero. -/
def pyInt (x : ℚ) : ℤ :=
  if 0 ≤ x then ⌊x⌋ else -⌊-x⌋

/-- Python slice `xs[:n]` for an arbitrary integer `n`. -/
def pySliceTo (n : ℤ) (xs : List ℚ) : List ℚ :=
  if 0 ≤ n then xs.take n.toNat else xs.take (xs.length - (-n).toNat)

/-- Arithmetic mean, `np.mean` on a nonempty list (on `[]` NumPy yields NaN;
all uses below are guarded so the list is nonempty). -/
def listMean (xs : List ℚ) : ℚ :=
  xs.sum / (xs.length : ℚ)

/-- Line 111: `num_windows_for_baseline =
min(int(baseline_duration_sec / (step / fs)), len(rms_vals))`. -/
def numWindowsForBaseline (d : ℚ) (fs step : ℕ) (L : ℕ) : ℤ :=
  min (pyInt (d / ((step : ℚ) / (fs : ℚ)))) (L : ℤ)

/-- Lines 110-117: the baseline pair together with the
insufficient-data diagnostic flag (`st.warning`, line 114).  When the count
is zero both components stay at the initialisation value `0`; otherwise they
are the means of the prefix slices `rms_vals[:num]`, `mnf_vals[:num]`. -/
def computeBaseline (d : ℚ) (fs step : ℕ) (rmsVals mnfVals : List ℚ) :
    ℚ × ℚ × Bool :=
  let num := numWindowsForBaseline d fs step rmsVals.length
  if num = 0 then (0, 0, true)
  else (listMean (pySliceTo num rmsVals), listMean (pySliceTo num mnfVals), false)

/-! ### Header parsing (lines 36-68) -/

/-- Decoded JSON header payload `{device_id: {...}}` of the second line:
the fields the source reads, after `json.loads` succeeded.  A missing
`"sampling rate"` key is `none` (the source's `info.get` then keeps the
ambient default); missing `"column"` / `"resolution"` keys are the empty
list, exactly the defaults passed to `info.get` in lines 50 and 55-56. -/
structure HeaderInfo where
  samplingRate : Option ℕ
  column : List String
  resolution : List ℕ
deriving DecidableEq

/-- The three string-level shapes the header-extraction `try` block
distinguishes: no `#`-marked second line at all (line 43 test false),
a marked line whose JSON fails to decode (`json.JSONDecodeError`, line 65),
or a successfully decoded payload. -/
inductive HeaderLine where
  | absent : HeaderLine
  | badJson : HeaderLine
  | decoded : HeaderInfo → HeaderLine
deriving DecidableEq

/-- The user-facing diagnostics of the header phase. -/
inductive HeaderDiag where
  | noHeader : HeaderDiag
  | jsonError : HeaderDiag
  | resolutionMissing : HeaderDiag
deriving DecidableEq

/-- Outcome of the header phase: either the hard failure of line 61
(`return None, ...`, aborting `process_emg_file` with no computed result)
or the triple (fs, emg_column_index, resolution_bits) the pipeline
proceeds with, plus emitted diagnostics. -/
inductive HeaderOutcome where
  | hardFail : HeaderOutcome
  | proceed : ℕ → ℕ → ℕ → List HeaderDiag → HeaderOutcome
deriving DecidableEq

/-- Lines 36-68 of `process_emg_file`: defaults `fs = 1000`,
`resolution_bits = 10`, `emg_column_index = 5`; a decoded header with an
`"A1"` column updates index and (when in range) resolution, a decoded
header without `"A1"` aborts (line 61), and the absent / bad-JSON cases
fall back to the defaults with a diagnostic. -/
def parseHeader (line : HeaderLine) : HeaderOutcome :=
  match line with
  | .absent => .proceed 1000 5 10 [.noHeader]
  | .badJson => .proceed 1000 5 10 [.jsonError]
  | .decoded info =>
    let fs := info.samplingRate.getD 1000
    if "A1" ∈ info.column then
      let idx := info.column.indexOf "A1"
      if idx < info.resolution.length then
        .proceed fs idx (info.resolution.getD idx 10) []
      else
        .proceed fs idx 10 [.resolutionMissing]
    else
      .hardFail

/-! ### Fatigue classification (caller of `process_emg_file`, lines 211-259) -/

/-- The four-way combined verdict of lines 229-236 (and, with trend inputs,
lines 250-257). -/
inductive Verdict where
  | both : Verdict
  | mnfOnly : Verdict
  | rmsOnly : Verdict
  | neither : Verdict
deriving DecidableEq

/-- The `if / elif / elif / else` priority cascade of lines 229-236:
first argument is the MNF fatigue flag, second the RMS fatigue flag. -/
def fourWay (fm fr : Prop) [Decidable fm] [Decidable fr] : Verdict :=
  if fm ∧ fr then .both
  else if fm then .mnfOnly
  else if fr then .rmsOnly
  else .neither

/-- Line 215 (the `else` arm multiplying `float('inf')` is dead inside the
`rms_baseline != 0` gate of line 211 and is not modelled):
`((final - baseline) / baseline) * 100`. -/
def pctChange (final base : ℚ) : ℚ :=
  ((final - base) / base) * 100

/-- Lines 120-124: both linear regressions are run exactly when
`len(t_vals) > 1`, else both slope/p-value pairs stay `None`.  The numeric
regression itself (`scipy.stats.linregress`, a floating-point least-squares
fit plus a t-distribution p-value) is abstracted as the parameter `reg`,
returning a (slope, p_value) pair; the claims depend only on when it is
invoked and how its outputs are thresholded. -/
def trendResults (reg : List ℚ → List ℚ → ℚ × ℚ) (tVals rmsVals mnfVals : List ℚ) :
    Option ((ℚ × ℚ) × (ℚ × ℚ)) :=
  if 1 < tVals.length then some (reg tVals rmsVals, reg tVals mnfVals) else none

/-- Lines 241-259: trend classification runs only when both regression
results exist (`slope_mnf is not None and slope_rms is not None`); `none`
models the `st.warning` skip of line 259.  Fatigue-by-trend flags are
lines 247-248: negative slope with p-value below `alpha`. -/
def trendClassify (alpha : ℚ) (tr : Option ((ℚ × ℚ) × (ℚ × ℚ))) : Option Verdict :=
  match tr with
  | none => none
  | some ((slopeR, pR), (slopeM, pM)) =>
    some (fourWay (slopeM < 0 ∧ pM < alpha) (slopeR < 0 ∧ pR < alpha))

/-- Lines 226-236: the percentage-change verdict from the final window
(`rms_vals[-1]`, `mnf_vals[-1]`) against the baseline pair. -/
def percentVerdict (thrM thrR : ℚ) (rmsVals mnfVals : List ℚ) (baseR baseM : ℚ) :
    Verdict :=
  fourWay (pctChange (mnfVals.getLastD 0) baseM ≤ thrM)
          (pctChange (rmsVals.getLastD 0) baseR ≤ thrR)

/-- Lines 211-259 as one function: the whole fatigue-analysis section is
gated by `len(t_vals) > 0 and rms_baseline != 0 and mnf_baseline != 0`
(line 211); inside it the percentage verdict is always produced and the
trend verdict is produced iff the regression results exist.  `none` models
the section being skipped entirely. -/
def analysisReport (thrM thrR alpha : ℚ) (reg : List ℚ → List ℚ → ℚ × ℚ)
    (tVals rmsVals mnfVals : List ℚ) (baseR baseM : ℚ) :
    Option (Verdict × Option Verdict) :=
  if 0 < tVals.length ∧ baseR ≠ 0 ∧ baseM ≠ 0 then
    some (percentVerdict thrM thrR rmsVals mnfVals baseR baseM,
          trendClassify alpha (trendResults reg tVals rmsVals mnfVals))
  else
    none

/-! ### Filter design and zero-phase application (lines 11-23, 85-91) -/

/-- Errors of the signal-conditioning stage: `scipy.signal.butter` rejecting
a normalised critical frequency outside (0, 1) (`ValueError: Digital filter
critical frequencies must be 0 < Wn < 1`), and `scipy.signal.filtfilt`
rejecting a signal not longer than the default pad length
(`ValueError: The length of the input vector x must be greater than
padlen`). -/
inductive CondError where
  | designError : CondError
  | sizeError : CondError
deriving DecidableEq

/-- The floating-point numeric cores abstracted out of the two SciPy
routines, together with their documented shape contracts: `butter(n, Wn,
btype='band'/'bandstop')` returns numerator/denominator coefficient arrays
of length `2*n+1` each, and `filtfilt` returns a filtered signal of the
same length as its input.  The error-handling claims depend only on these
contracts and on the guards embedded below, never on the numeric values. -/
structure NumKernel where
  butterCore : ℕ → ℚ → ℚ → Bool → List ℚ × List ℚ
  filtfiltCore : List ℚ → List ℚ → List ℚ → List ℚ
  butterCore_len :
    ∀ order low high bs, (butterCore order low high bs).1.length = 2 * order + 1 ∧
      (butterCore order low high bs).2.length = 2 * order + 1
  filtfiltCore_len : ∀ b a x, (filtfiltCore b a x).length = x.length

/-- `scipy.signal.butter` for the band/bandstop types used here: validates
`0 < Wn < 1` for both normalised critical frequencies, then hands off to
the numeric design core. -/
def butter (K : NumKernel) (order : ℕ) (low high : ℚ) (bandstop : Bool) :
    Except CondError (List ℚ × List ℚ) :=
  if 0 < low ∧ low < 1 ∧ 0 < high ∧ high < 1 then
    .ok (K.butterCore order low high bandstop)
  else
    .error .designError

/-- `scipy.signal.filtfilt` with its default `padlen = 3 * max(len(a),
len(b))`: raises unless the signal is strictly longer than `padlen`,
otherwise applies the zero-phase numeric core. -/
def filtfilt (K : NumKernel) (b a x : List ℚ) : Except CondError (List ℚ) :=
  if x.length ≤ 3 * max b.length a.length then .error .sizeError
  else .ok (K.filtfiltCore b a x)

/-- Lines 11-15: 5th-order Butterworth band-pass between `lowcut` and
`highcut`, cutoffs normalised by the Nyquist frequency `fs / 2`, applied
forward-backward. -/
def bandpass_filter (K : NumKernel) (signal : List ℚ) (lowcut highcut : ℚ)
    (fs : ℕ) (order : ℕ) : Except CondError (List ℚ) := do
  let nyq : ℚ := (fs : ℚ) / 2
  let ba ← butter K order (lowcut / nyq) (highcut / nyq) false
  filtfilt K ba.1 ba.2 signal

/-- Lines 17-23: 2nd-order Butterworth band-stop over
`[notch_freq - 1, notch_freq + 1]`, normalised by Nyquist, applied
forward-backward. -/
def notch_filter (K : NumKernel) (signal : List ℚ) (notch_freq : ℚ)
    (fs : ℕ) (order : ℕ) : Except CondError (List ℚ) := do
  let nyq : ℚ := (fs : ℚ) / 2
  let ba ← butter K order ((notch_freq - 1) / nyq) ((notch_freq + 1) / nyq) true
  filtfilt K ba.1 ba.2 signal

/-- Line 88: subtract the series mean (DC-offset removal). -/
def removeDC (xs : List ℚ) : List ℚ :=
  xs.map (fun x => x - listMean xs)

/-- Lines 88-91: the conditioning cascade on the calibrated-mV series —
DC removal, 50 Hz notch (order 2), 20-450 Hz band-pass (order 5),
rectification.  An exception anywhere propagates out of
`process_emg_file` (the `try` of line 40 only wraps header extraction). -/
def conditionSignal (K : NumKernel) (fs : ℕ) (emg_mv : List ℚ) :
    Except CondError (List ℚ) := do
  let centered := removeDC emg_mv
  let notched ← notch_filter K centered 50 fs 2
  let banded ← bandpass_filter K notched 20 450 fs 5
  .ok (banded.map (fun x => |x|))

/-- Helper: whether an `Except` computation succeeded. -/
def exceptOk {ε α : Type} (e : Except ε α) : Bool :=
  match e with
  | .ok _ => true
  | .error _ => false

/-! ### Features: RMS and Welch-PSD mean frequency (lines 96-107)

`scipy.signal.welch(segment, fs=fs, nperseg=min(128, win_size))` with its
defaults: Hann window (periodic, `sym=False`), `noverlap = nperseg // 2`,
`nfft = nperseg`, per-segment constant detrending, one-sided density
scaling, mean averaging over segments.  All of that is irrational-valued,
so this part of the embedding lives in `ℝ`/`ℂ`. -/

/-- Periodic Hann window of length `M`:
`w[n] = 0.5 * (1 - cos(2*pi*n / M))`. -/
noncomputable def hannW (M n : ℕ) : ℝ :=
  1/2 * (1 - Real.cos (2 * Real.pi * n / M))

/-- Squared magnitude of the `k`-th DFT bin of the length-`M` sequence
`ys`. -/
noncomputable def dftNormSq (ys : ℕ → ℝ) (M k : ℕ) : ℝ :=
  Complex.normSq
    (∑ n ∈ Finset.range M,
      (ys n : ℂ) * Complex.exp (-(2 * Real.pi * Complex.I * k * n) / M))

/-- Constant detrend of a length-`M` segment: subtract its mean. -/
noncomputable def detrendConst (M : ℕ) (xs : ℕ → ℝ) : ℕ → ℝ :=
  fun n => xs n - (∑ i ∈ Finset.range M, xs i) / M

/-- One-sided spectrum factor: every bin is doubled except DC and (for even
`M`) the Nyquist bin. -/
def oneSidedFactor (M k : ℕ) : ℝ :=
  if k = 0 ∨ 2 * k = M then 1 else 2

/-- One-sided density-scaled modified periodogram of a single detrended
segment: `factor * |DFT(hann * x)|^2 / (fs * sum(hann^2))`. -/
noncomputable def welchSegPxx (fs M : ℕ) (xs : ℕ → ℝ) (k : ℕ) : ℝ :=
  oneSidedFactor M k * dftNormSq (fun n => hannW M n * xs n) M k /
    ((fs : ℝ) * ∑ n ∈ Finset.range M, hannW M n ^ 2)

/-- Welch PSD estimate at bin `k` of the length-`N` signal `x`: segments of
length `M` starting every `M - M/2` samples (overlap `M/2`), each constant-
detrended, windowed, transformed, and the periodograms averaged. -/
noncomputable def welchPxx (fs M N : ℕ) (x : ℕ → ℝ) (k : ℕ) : ℝ :=
  (∑ j ∈ Finset.range ((N - M) / (M - M / 2) + 1),
      welchSegPxx fs M (detrendConst M (fun n => x (j * (M - M / 2) + n))) k) /
    (((N - M) / (M - M / 2) + 1 : ℕ) : ℝ)

/-- One-sided frequency grid: `f[k] = k * fs / M`, `k = 0 .. M/2`. -/
noncomputable def welchFreq (fs M k : ℕ) : ℝ :=
  (k : ℝ) * (fs : ℝ) / (M : ℝ)

/-- Line 102-103: mean frequency of a length-`N` segment from the Welch
PSD with `nperseg = M`:
`sum(f * Pxx) / sum(Pxx) if sum(Pxx) > 0 else 0`. -/
noncomputable def welchMnf (fs M N : ℕ) (x : ℕ → ℝ) : ℝ :=
  if 0 < ∑ k ∈ Finset.range (M / 2 + 1), welchPxx fs M N x k then
    (∑ k ∈ Finset.range (M / 2 + 1), welchFreq fs M k * welchPxx fs M N x k) /
      (∑ k ∈ Finset.range (M / 2 + 1), welchPxx fs M N x k)
  else 0

/-- Line 100: `rms = np.sqrt(np.mean(segment**2))` over a length-`ws`
segment. -/
noncomputable def rmsOf (ws : ℕ) (seg : ℕ → ℝ) : ℝ :=
  Real.sqrt ((∑ n ∈ Finset.range ws, seg n ^ 2) / (ws : ℝ))

/-- Lines 96-107: the feature loop over the rectified series.  Window size
and stride are `fs // 4` and `fs // 8` (lines 70-71), the Welch segment
length is `min(128, win_size)` (line 102); each window start `i` yields the
(rms, mnf) pair of the slice `[i, i + win_size)`. -/
noncomputable def extractFeatures (fs : ℕ) (rect : List ℝ) : List (ℝ × ℝ) :=
  (windowStarts rect.length (fs / 4) (fs / 8)).map (fun i =>
    (rmsOf (fs / 4) (fun n => rect.getD (i + n) 0),
     welchMnf fs (min 128 (fs / 4)) (fs / 4) (fun n => rect.getD (i + n) 0)))

/-! ## Theorems about the claims -/

/-- C1: Feature extraction slides a window of `win_size = fs // 4` samples
with stride `step = fs // 8` over the rectified signal, starting at indices
`0, step, 2*step, ...`; for `N` samples the number of windows is
`(N - win_size) / step + 1` when `win_size ≤ N` and `0` otherwise; in
particular `N = 4000`, `fs = 1000` yields exactly 31 windows. -/
theorem featureWindowCount (fs N : ℕ) (hfs : 8 ≤ fs) :
    ((windowStarts N (fs / 4) (fs / 8)).length =
        if fs / 4 ≤ N then (N - fs / 4) / (fs / 8) + 1 else 0)
    ∧ (∀ rect : List ℝ, rect.length = N →
        (extractFeatures fs rect).length = (windowStarts N (fs / 4) (fs / 8)).length)
    ∧ (∀ k, k < (windowStarts N (fs / 4) (fs / 8)).length →
        (windowStarts N (fs / 4) (fs / 8)).getD k 0 = k * (fs / 8))
    ∧ (windowStarts 4000 (1000 / 4) (1000 / 8)).length = 31 := by
  have hstep : 0 < fs / 8 := Nat.div_pos hfs (by norm_num)
  refine ⟨?_, ?_, ?_, by decide⟩
  · by_cases hws : fs / 4 ≤ N
    · simp only [windowStarts, pyRange, if_pos hws, List.length_map, List.length_range]
      have h1 : N - fs / 4 + 1 + fs / 8 - 1 = N - fs / 4 + fs / 8 := by omega
      rw [h1, Nat.add_div_right _ hstep]
    · simp only [windowStarts, pyRange, if_neg hws, List.length_map, List.length_range]
      rw [Nat.div_eq_of_lt (by omega)]
  · intro rect hrect
    simp [extractFeatures, hrect]
  · intro k hk
    simp only [windowStarts, pyRange, List.length_map, List.length_range] at hk ⊢
    rw [List.getD_eq_getElem _ _ (by simpa using hk)]
    simp

/-- Witness for C1 at `fs = 1000`, `N = 4000`: exactly 31 windows. -/
theorem featureWindowCount_witness :
    (windowStarts 4000 (1000 / 4) (1000 / 8)).length = 31 :=
  (featureWindowCount 1000 4000 (by norm_num)).2.2.2

/-- C2: Calibration is the stateless elementwise map
`value_mv = ((raw / 2^bits) - 0.5) * vcc * 1000 / gain` with the defaults
`vcc = 3.3`, `gain = 1000`; mid-scale `raw = 512` at 10 bits maps to
exactly 0 mV (hence within 1e-9 of 0). -/
theorem calibrationFormula :
    (∀ (raws : List ℚ) (bits : ℕ) (i : ℕ), i < raws.length →
        (calibrateSeries raws bits).getD i 0 =
          ((raws.getD i 0) / 2 ^ bits - 1/2) * (33/10) * 1000 / 1000)
    ∧ convert_to_mv 512 10 (33/10) 1000 = 0
    ∧ |convert_to_mv 512 10 (33/10) 1000| ≤ 1 / 10 ^ 9 := by
  have hmid : convert_to_mv 512 10 (33/10) 1000 = 0 := by
    norm_num [convert_to_mv]
  refine ⟨?_, hmid, by rw [hmid]; norm_num⟩
  intro raws bits i hi
  rw [List.getD_eq_getElem _ _ (by simpa [calibrateSeries] using hi),
      List.getD_eq_getElem _ _ hi]
  simp [calibrateSeries, convert_to_mv]

/-- Witness for C2: the elementwise equation evaluated on the singleton
series `[512]` at 10 bits. -/
theorem calibrationFormula_witness :
    (calibrateSeries [512] 10).getD 0 0 =
      (([512] : List ℚ).getD 0 0 / 2 ^ 10 - 1/2) * (33/10) * 1000 / 1000 :=
  calibrationFormula.1 [512] 10 0 (by simp)

/-- C6: a decoded header whose column layout lacks `"A1"` makes the
pipeline abort with the hard-failure outcome (no computed result), while a
missing header line proceeds with the defaults `fs = 1000`, column index 5,
10 bits and a diagnostic — two distinct outcomes. -/
theorem headerChannelMissing (info : HeaderInfo) (h : "A1" ∉ info.column) :
    parseHeader (.decoded info) = .hardFail
    ∧ parseHeader .absent = .proceed 1000 5 10 [.noHeader]
    ∧ parseHeader (.decoded info) ≠ parseHeader .absent := by
  have h1 : parseHeader (.decoded info) = .hardFail := by
    simp [parseHeader, h]
  refine ⟨h1, rfl, ?_⟩
  rw [h1]
  simp [parseHeader]

/-- Witness for C6: a header declaring only `nSeq` and `I1` columns. -/
theorem headerChannelMissing_witness :
    parseHeader (.decoded ⟨some 1000, ["nSeq", "I1"], [10]⟩) = .hardFail :=
  (headerChannelMissing ⟨some 1000, ["nSeq", "I1"], [10]⟩ (by decide)).1

/-- C3: the baseline window count is
`min(floor(baseline_duration_sec * fs / step), total_windows)`; a zero
count yields the `(0, 0)` baseline with a diagnostic, otherwise the
baseline is the mean over exactly the first `num` feature values — entries
at index `≥ num` never contribute. -/
theorem baselineWindowMean (d : ℚ) (fs step : ℕ) (rmsVals mnfVals : List ℚ)
    (hd : 0 ≤ d) (hfs : 0 < fs) (hstep : 0 < step) :
    (numWindowsForBaseline d fs step rmsVals.length =
        min ⌊d * fs / step⌋ (rmsVals.length : ℤ))
    ∧ (numWindowsForBaseline d fs step rmsVals.length = 0 →
        computeBaseline d fs step rmsVals mnfVals = (0, 0, true))
    ∧ (numWindowsForBaseline d fs step rmsVals.length ≠ 0 →
        computeBaseline d fs step rmsVals mnfVals =
          (listMean (rmsVals.take (numWindowsForBaseline d fs step rmsVals.length).toNat),
           listMean (mnfVals.take (numWindowsForBaseline d fs step rmsVals.length).toNat),
           false))
    ∧ (∀ rmsVals' mnfVals' : List ℚ, rmsVals'.length = rmsVals.length →
        rmsVals'.take (numWindowsForBaseline d fs step rmsVals.length).toNat =
          rmsVals.take (numWindowsForBaseline d fs step rmsVals.length).toNat →
        mnfVals'.take (numWindowsForBaseline d fs step rmsVals.length).toNat =
          mnfVals.take (numWindowsForBaseline d fs step rmsVals.length).toNat →
        computeBaseline d fs step rmsVals' mnfVals' =
          computeBaseline d fs step rmsVals mnfVals) := by
  have harg : 0 ≤ d * (fs : ℚ) / (step : ℚ) := by
    apply div_nonneg (mul_nonneg hd (by positivity)) (by positivity)
  have hpy : pyInt (d / ((step : ℚ) / (fs : ℚ))) = ⌊d * fs / step⌋ := by
    rw [div_div_eq_mul_div, pyInt, if_pos harg]
  have hnum : ∀ L : ℕ, numWindowsForBaseline d fs step L =
      min ⌊d * fs / step⌋ (L : ℤ) := by
    intro L
    rw [numWindowsForBaseline, hpy]
  have hnn : ∀ L : ℕ, 0 ≤ numWindowsForBaseline d fs step L := by
    intro L
    rw [hnum]
    exact le_min (Int.floor_nonneg.mpr harg) (by positivity)
  have hps : ∀ xs : List ℚ, pySliceTo (numWindowsForBaseline d fs step rmsVals.length) xs
      = xs.take (numWindowsForBaseline d fs step rmsVals.length).toNat := by
    intro xs
    rw [pySliceTo, if_pos (hnn _)]
  refine ⟨hnum _, ?_, ?_, ?_⟩
  · intro h0
    simp only [computeBaseline]
    rw [if_pos h0]
  · intro h0
    simp only [computeBaseline]
    rw [if_neg h0, hps, hps]
  · intro rmsVals' mnfVals' hlen htr htm
    have hsame : numWindowsForBaseline d fs step rmsVals'.length =
        numWindowsForBaseline d fs step rmsVals.length := by rw [hlen]
    simp only [computeBaseline, hsame]
    by_cases h0 : numWindowsForBaseline d fs step rmsVals.length = 0
    · rw [if_pos h0, if_pos h0]
    · rw [if_neg h0, if_neg h0, hps, hps, hps, hps, htr, htm]

/-- Witness for C3 at `d = 5`, `fs = 1000`, `step = 125` on three feature
values: the count formula instantiated concretely. -/
theorem baselineWindowMean_witness :
    numWindowsForBaseline 5 1000 125 ([1, 2, 3] : List ℚ).length =
      min ⌊(5 : ℚ) * 1000 / 125⌋ (([1, 2, 3] : List ℚ).length : ℤ) :=
  (baselineWindowMean 5 1000 125 [1, 2, 3] [4, 5, 6]
    (by norm_num) (by norm_num) (by norm_num)).1

/-- C4: inside the gate (at least one window, both baseline components
non-zero) the percentage-change rule compares
`(final - baseline)/baseline * 100` of the last window against the
thresholds, MNF flag before RMS flag, through the four-way priority
cascade; outside the gate the whole analysis is skipped; the concrete
instance `baseline_rms = 1`, `final_rms = 0.85`, `baseline_mnf = 100`,
`final_mnf = 95` with both thresholds `-10` yields the RMS-only
("needs confirmation") verdict. -/
theorem percentRule (thrM thrR alpha : ℚ) (reg : List ℚ → List ℚ → ℚ × ℚ)
    (tVals rmsVals mnfVals : List ℚ) (baseR baseM : ℚ)
    (ht : 0 < tVals.length) (hR : baseR ≠ 0) (hM : baseM ≠ 0) :
    (analysisReport thrM thrR alpha reg tVals rmsVals mnfVals baseR baseM =
        some (fourWay (pctChange (mnfVals.getLastD 0) baseM ≤ thrM)
                      (pctChange (rmsVals.getLastD 0) baseR ≤ thrR),
              trendClassify alpha (trendResults reg tVals rmsVals mnfVals)))
    ∧ (∀ (p q : Prop) (dp : Decidable p) (dq : Decidable q),
        (@fourWay p q dp dq = .both ↔ p ∧ q)
        ∧ (@fourWay p q dp dq = .mnfOnly ↔ p ∧ ¬q)
        ∧ (@fourWay p q dp dq = .rmsOnly ↔ ¬p ∧ q)
        ∧ (@fourWay p q dp dq = .neither ↔ ¬p ∧ ¬q))
    ∧ (∀ (tVals' : List ℚ) (baseR' baseM' : ℚ),
        tVals'.length = 0 ∨ baseR' = 0 ∨ baseM' = 0 →
        analysisReport thrM thrR alpha reg tVals' rmsVals mnfVals baseR' baseM' = none)
    ∧ ((analysisReport (-10) (-10) alpha reg [0] [17/20] [95] 1 100).map Prod.fst
        = some .rmsOnly) := by
  refine ⟨?_, ?_, ?_, ?_⟩
  · rw [analysisReport, if_pos ⟨ht, hR, hM⟩]
    rfl
  · intro p q dp dq
    by_cases hp : p <;> by_cases hq : q <;>
      simp [fourWay, hp, hq]
  · intro tVals' baseR' baseM' h
    rw [analysisReport, if_neg]
    rintro ⟨h1, h2, h3⟩
    rcases h with h | h | h
    · omega
    · exact h2 h
    · exact h3 h
  · have hgate : analysisReport (-10) (-10) alpha reg [0] [17/20] [95] 1 100 =
        some (percentVerdict (-10) (-10) [17/20] [95] 1 100,
              trendClassify alpha (trendResults reg [0] [17/20] [95])) := by
      rw [analysisReport, if_pos]
      exact ⟨by simp, by norm_num, by norm_num⟩
    rw [hgate, Option.map_some']
    have hpv : percentVerdict (-10) (-10) [17/20] [95] 1 100 = .rmsOnly := by
      rw [percentVerdict, fourWay, if_neg, if_neg, if_pos]
      · norm_num [pctChange]
      · norm_num [pctChange]
      · norm_num [pctChange]
    rw [hpv]

/-- Witness for C4 at the claim's concrete classifier inputs. -/
theorem percentRule_witness :
    (analysisReport (-10) (-10) (1/20) (fun _ _ => ((0 : ℚ), (1 : ℚ)))
        [0] [17/20] [95] 1 100).map Prod.fst = some .rmsOnly :=
  (percentRule (-10) (-10) (1/20) (fun _ _ => ((0 : ℚ), (1 : ℚ)))
    [0] [17/20] [95] 1 100 (by simp) (by norm_num) (by norm_num)).2.2.2

/-- C5: the regression pair exists iff more than one window exists (`none`
with a diagnostic otherwise, and trend classification is then skipped);
when defined, the trend flags are `slope < 0 ∧ p < alpha` for MNF and RMS
through the same four-way priority cascade; the trend status is reported
separately from the percentage status — each is unchanged by the other
rule's parameters. -/
theorem trendRule (reg : List ℚ → List ℚ → ℚ × ℚ)
    (tVals rmsVals mnfVals : List ℚ) (alpha slopeR pR slopeM pM : ℚ) :
    (trendResults reg tVals rmsVals mnfVals = none ↔ tVals.length ≤ 1)
    ∧ trendClassify alpha none = none
    ∧ (trendClassify alpha (some ((slopeR, pR), (slopeM, pM))) = some .both ↔
        (slopeM < 0 ∧ pM < alpha) ∧ (slopeR < 0 ∧ pR < alpha))
    ∧ (trendClassify alpha (some ((slopeR, pR), (slopeM, pM))) = some .mnfOnly ↔
        (slopeM < 0 ∧ pM < alpha) ∧ ¬(slopeR < 0 ∧ pR < alpha))
    ∧ (trendClassify alpha (some ((slopeR, pR), (slopeM, pM))) = some .rmsOnly ↔
        ¬(slopeM < 0 ∧ pM < alpha) ∧ (slopeR < 0 ∧ pR < alpha))
    ∧ (trendClassify alpha (some ((slopeR, pR), (slopeM, pM))) = some .neither ↔
        ¬(slopeM < 0 ∧ pM < alpha) ∧ ¬(slopeR < 0 ∧ pR < alpha))
    ∧ (∀ thrM thrR thrM' thrR' baseR baseM : ℚ,
        (analysisReport thrM thrR alpha reg tVals rmsVals mnfVals baseR baseM).map
            Prod.snd =
          (analysisReport thrM' thrR' alpha reg tVals rmsVals mnfVals baseR baseM).map
            Prod.snd)
    ∧ (∀ (thrM thrR alpha' baseR baseM : ℚ) (reg' : List ℚ → List ℚ → ℚ × ℚ),
        (analysisReport thrM thrR alpha reg tVals rmsVals mnfVals baseR baseM).map
            Prod.fst =
          (analysisReport thrM thrR alpha' reg' tVals rmsVals mnfVals baseR baseM).map
            Prod.fst) := by
  refine ⟨?_, rfl, ?_, ?_, ?_, ?_, ?_, ?_⟩
  · constructor
    · intro hn
      rw [trendResults] at hn
      by_contra hc
      rw [if_pos (by omega)] at hn
      exact Option.some_ne_none _ hn
    · intro hle
      rw [trendResults, if_neg (by omega)]
  · by_cases h1 : slopeM < 0 ∧ pM < alpha <;> by_cases h2 : slopeR < 0 ∧ pR < alpha <;>
      simp [trendClassify, fourWay, h1, h2]
  · by_cases h1 : slopeM < 0 ∧ pM < alpha <;> by_cases h2 : slopeR < 0 ∧ pR < alpha <;>
      simp [trendClassify, fourWay, h1, h2]
  · by_cases h1 : slopeM < 0 ∧ pM < alpha <;> by_cases h2 : slopeR < 0 ∧ pR < alpha <;>
      simp [trendClassify, fourWay, h1, h2]
  · by_cases h1 : slopeM < 0 ∧ pM < alpha <;> by_cases h2 : slopeR < 0 ∧ pR < alpha <;>
      simp [trendClassify, fourWay, h1, h2]
  · intro thrM thrR thrM' thrR' baseR baseM
    by_cases hg : 0 < tVals.length ∧ baseR ≠ 0 ∧ baseM ≠ 0 <;>
      simp [analysisReport, hg]
  · intro thrM thrR alpha' baseR baseM reg'
    by_cases hg : 0 < tVals.length ∧ baseR ≠ 0 ∧ baseM ≠ 0 <;>
      simp [analysisReport, hg]

/-- Witness for C5: negative slopes with p-values below `alpha = 0.05` on
both channels give the combined trend verdict. -/
theorem trendRule_witness :
    trendClassify (1/20) (some ((-1, 1/100), (-2, 1/100))) = some Verdict.both :=
  (trendRule (fun _ _ => ((0 : ℚ), (1 : ℚ))) [] [] [] (1/20) (-1) (1/100)
      (-2) (1/100)).2.2.1.mpr
    ⟨⟨by norm_num, by norm_num⟩, ⟨by norm_num, by norm_num⟩⟩

/-! ### Helper lemmas about the spectral model -/

lemma dftNormSq_nonneg (ys : ℕ → ℝ) (M k : ℕ) : 0 ≤ dftNormSq ys M k :=
  Complex.normSq_nonneg _

lemma oneSidedFactor_nonneg (M k : ℕ) : 0 ≤ oneSidedFactor M k := by
  rw [oneSidedFactor]
  split <;> norm_num

lemma welchSegPxx_nonneg (fs M : ℕ) (xs : ℕ → ℝ) (k : ℕ) :
    0 ≤ welchSegPxx fs M xs k := by
  rw [welchSegPxx]
  apply div_nonneg (mul_nonneg (oneSidedFactor_nonneg _ _) (dftNormSq_nonneg _ _ _))
  apply mul_nonneg (by positivity)
  apply Finset.sum_nonneg
  intro n _
  positivity

lemma welchPxx_nonneg (fs M N : ℕ) (x : ℕ → ℝ) (k : ℕ) :
    0 ≤ welchPxx fs M N x k := by
  rw [welchPxx]
  apply div_nonneg _ (by positivity)
  apply Finset.sum_nonneg
  intro j _
  exact welchSegPxx_nonneg _ _ _ _

lemma welchFreq_nonneg (fs M k : ℕ) : 0 ≤ welchFreq fs M k := by
  rw [welchFreq]
  positivity

lemma welchMnf_nonneg (fs M N : ℕ) (x : ℕ → ℝ) : 0 ≤ welchMnf fs M N x := by
  rw [welchMnf]
  split
  · apply div_nonneg _ (le_of_lt (by assumption))
    apply Finset.sum_nonneg
    intro k _
    exact mul_nonneg (welchFreq_nonneg _ _ _) (welchPxx_nonneg _ _ _ _ _)
  · exact le_refl 0

lemma dftNormSq_of_zero (ys : ℕ → ℝ) (M k : ℕ) (h : ∀ n, ys n = 0) :
    dftNormSq ys M k = 0 := by
  rw [dftNormSq]
  have hz : ∀ n ∈ Finset.range M,
      (ys n : ℂ) * Complex.exp (-(2 * Real.pi * Complex.I * k * n) / M) = 0 := by
    intro n _
    rw [h n]
    simp
  rw [Finset.sum_congr rfl hz]
  simp

lemma welchSegPxx_of_zero (fs M : ℕ) (xs : ℕ → ℝ) (k : ℕ) (h : ∀ n, xs n = 0) :
    welchSegPxx fs M xs k = 0 := by
  rw [welchSegPxx, dftNormSq_of_zero _ _ _ (fun n => by rw [h n, mul_zero])]
  simp

lemma detrendConst_of_zero (M : ℕ) (xs : ℕ → ℝ) (h : ∀ n, xs n = 0) :
    ∀ n, detrendConst M xs n = 0 := by
  intro n
  rw [detrendConst]
  simp [h]

lemma welchPxx_of_zero (fs M N : ℕ) (x : ℕ → ℝ) (k : ℕ) (h : ∀ n, x n = 0) :
    welchPxx fs M N x k = 0 := by
  rw [welchPxx]
  have hz : ∀ j ∈ Finset.range ((N - M) / (M - M / 2) + 1),
      welchSegPxx fs M (detrendConst M (fun n => x (j * (M - M / 2) + n))) k = 0 := by
    intro j _
    exact welchSegPxx_of_zero _ _ _ _ (detrendConst_of_zero _ _ (fun n => h _))
  rw [Finset.sum_congr rfl hz]
  simp

lemma welchMnf_of_zero (fs M N : ℕ) (x : ℕ → ℝ) (h : ∀ n, x n = 0) :
    welchMnf fs M N x = 0 := by
  rw [welchMnf, if_neg]
  rw [Finset.sum_congr rfl (fun k _ => welchPxx_of_zero fs M N x k h)]
  simp

lemma rmsOf_of_zero (ws : ℕ) (seg : ℕ → ℝ) (h : ∀ n, seg n = 0) :
    rmsOf ws seg = 0 := by
  rw [rmsOf]
  have hz : ∀ n ∈ Finset.range ws, seg n ^ 2 = 0 := by
    intro n _
    rw [h n]
    ring
  rw [Finset.sum_congr rfl hz]
  simp

lemma getD_zero_mem {α : Type} (l : List α) (d : α) (h : l ≠ []) :
    l.getD 0 d ∈ l := by
  cases l with
  | nil => exact absurd rfl h
  | cons x t => simp [List.getD]

lemma extractFeatures_small_ne :
    extractFeatures 8 (List.replicate 2 (0 : ℝ)) ≠ [] := by
  rw [extractFeatures]
  have hws : windowStarts (List.replicate 2 (0 : ℝ)).length (8 / 4) (8 / 8) = [0] := by
    simp only [List.length_replicate]
    decide
  rw [hws]
  simp

/-- C9: every feature window produced by extraction has a nonnegative RMS
(a square root) and a nonnegative MNF (zero, or a quotient of sums of
products of nonnegative frequencies and nonnegative spectral densities by a
positive denominator). -/
theorem featuresNonneg (fs : ℕ) (rect : List ℝ) :
    ∀ p ∈ extractFeatures fs rect, 0 ≤ p.1 ∧ 0 ≤ p.2 := by
  intro p hp
  rw [extractFeatures] at hp
  simp only [List.mem_map] at hp
  obtain ⟨i, _, rfl⟩ := hp
  exact ⟨Real.sqrt_nonneg _, welchMnf_nonneg _ _ _ _⟩

/-- Witness for C9: the single feature window of a 2-sample recording at
`fs = 8` satisfies both bounds. -/
theorem featuresNonneg_witness :
    0 ≤ ((extractFeatures 8 (List.replicate 2 (0 : ℝ))).getD 0 (-1, -1)).1
    ∧ 0 ≤ ((extractFeatures 8 (List.replicate 2 (0 : ℝ))).getD 0 (-1, -1)).2 :=
  featuresNonneg 8 _ _ (getD_zero_mem _ _ extractFeatures_small_ne)

/-- C7: over an all-zero rectified signal every window's RMS and MNF are
exactly 0 — MNF falls back to 0 through its zero-total-power guard, with no
division-by-zero — and, in general, whenever the summed Welch power of a
window is zero its MNF is defined to be 0. -/
theorem zeroSegmentDegenerate (fs : ℕ) (rect : List ℝ) (hz : ∀ x ∈ rect, x = 0) :
    (∀ p ∈ extractFeatures fs rect, p.1 = 0 ∧ p.2 = 0)
    ∧ (∀ (M N : ℕ) (x : ℕ → ℝ),
        (∑ k ∈ Finset.range (M / 2 + 1), welchPxx fs M N x k) = 0 →
        welchMnf fs M N x = 0) := by
  have hgetD : ∀ m : ℕ, rect.getD m 0 = 0 := by
    intro m
    rcases h : rect[m]? with _ | x
    · simp [List.getD, h]
    · have hm := List.getElem?_mem h
      simp [List.getD, h, hz x hm]
  constructor
  · intro p hp
    rw [extractFeatures] at hp
    simp only [List.mem_map] at hp
    obtain ⟨i, _, rfl⟩ := hp
    exact ⟨rmsOf_of_zero _ _ (fun n => hgetD _),
           welchMnf_of_zero _ _ _ _ (fun n => hgetD _)⟩
  · intro M N x hS
    rw [welchMnf, if_neg]
    rw [hS]
    exact lt_irrefl 0

/-- Witness for C7: the single feature window of the all-zero 2-sample
recording at `fs = 8` is exactly `(0, 0)`. -/
theorem zeroSegmentDegenerate_witness :
    (extractFeatures 8 (List.replicate 2 (0 : ℝ))).getD 0 (1, 1) = (0, 0) := by
  have h := (zeroSegmentDegenerate 8 (List.replicate 2 (0 : ℝ)) (by simp)).1
    ((extractFeatures 8 (List.replicate 2 (0 : ℝ))).getD 0 (1, 1))
    (getD_zero_mem _ _ extractFeatures_small_ne)
  exact Prod.ext_iff.mpr ⟨h.1, h.2⟩

/-! ### Helper lemmas about the conditioning stage -/

lemma ebind_ok {ε α β : Type} (v : α) (f : α → Except ε β) :
    (Bind.bind (Except.ok v) f) = f v := rfl

lemma ebind_err {ε α β : Type} (e : ε) (f : α → Except ε β) :
    (Bind.bind (Except.error e : Except ε α) f) = Except.error e := rfl

lemma removeDC_length (y : List ℚ) : (removeDC y).length = y.length := by
  simp [removeDC]

lemma filtfilt_err (K : NumKernel) (b a x : List ℚ)
    (h : x.length ≤ 3 * max b.length a.length) :
    filtfilt K b a x = .error .sizeError := by
  rw [filtfilt, if_pos h]

lemma filtfilt_ok (K : NumKernel) (b a x : List ℚ)
    (h : ¬x.length ≤ 3 * max b.length a.length) :
    filtfilt K b a x = .ok (K.filtfiltCore b a x) := by
  rw [filtfilt, if_neg h]

lemma filtfilt_ok_length (K : NumKernel) (b a x y : List ℚ)
    (h : filtfilt K b a x = .ok y) : y.length = x.length := by
  rw [filtfilt] at h
  split at h
  · exact absurd h (by simp)
  · injection h with h1
    rw [← h1, K.filtfiltCore_len]

/-- C8: with a valid sampling rate (`fs > 900`, so both designs succeed), a
calibrated signal of at most 33 samples — the order-5 band-pass needs more
than `3 * 11` for its zero-phase padding, the order-2 notch more than
`3 * 5` — makes the conditioning cascade fail with the size error; and the
cascade never silently shortens: any successful run preserves the signal
length. -/
theorem shortSignalSizeError (K : NumKernel) (fs : ℕ) (x : List ℚ)
    (hfs : 900 < fs) (hx : x.length ≤ 33) :
    conditionSignal K fs x = .error .sizeError
    ∧ (∀ y z : List ℚ, conditionSignal K fs y = .ok z → z.length = y.length) := by
  have hq : (900 : ℚ) < (fs : ℚ) := by exact_mod_cast hfs
  have hnyq : (0 : ℚ) < (fs : ℚ) / 2 := by linarith
  obtain ⟨nc, hnc⟩ : ∃ p, K.butterCore 2 (((50 : ℚ) - 1) / ((fs : ℚ) / 2))
      (((50 : ℚ) + 1) / ((fs : ℚ) / 2)) true = p := ⟨_, rfl⟩
  obtain ⟨bc, hbc⟩ : ∃ p, K.butterCore 5 ((20 : ℚ) / ((fs : ℚ) / 2))
      ((450 : ℚ) / ((fs : ℚ) / 2)) false = p := ⟨_, rfl⟩
  have hnotchB : butter K 2 (((50 : ℚ) - 1) / ((fs : ℚ) / 2))
      (((50 : ℚ) + 1) / ((fs : ℚ) / 2)) true = .ok nc := by
    rw [butter, if_pos, hnc]
    refine ⟨?_, ?_, ?_, ?_⟩
    · rw [show ((50 : ℚ) - 1) = 49 by norm_num]
      positivity
    · rw [div_lt_one hnyq]
      linarith
    · rw [show ((50 : ℚ) + 1) = 51 by norm_num]
      positivity
    · rw [div_lt_one hnyq]
      linarith
  have hbandB : butter K 5 ((20 : ℚ) / ((fs : ℚ) / 2))
      ((450 : ℚ) / ((fs : ℚ) / 2)) false = .ok bc := by
    rw [butter, if_pos, hbc]
    refine ⟨by positivity, ?_, by positivity, ?_⟩
    · rw [div_lt_one hnyq]
      linarith
    · rw [div_lt_one hnyq]
      linarith
  have hnclen := K.butterCore_len 2 (((50 : ℚ) - 1) / ((fs : ℚ) / 2))
      (((50 : ℚ) + 1) / ((fs : ℚ) / 2)) true
  rw [hnc] at hnclen
  have hbclen := K.butterCore_len 5 ((20 : ℚ) / ((fs : ℚ) / 2))
      ((450 : ℚ) / ((fs : ℚ) / 2)) false
  rw [hbc] at hbclen
  constructor
  · simp only [conditionSignal, notch_filter, bandpass_filter, hnotchB, ebind_ok]
    rcases le_or_lt x.length 15 with h15 | h15
    · rw [filtfilt_err K nc.1 nc.2 (removeDC x)
        (by rw [hnclen.1, hnclen.2, removeDC_length]; omega)]
      rfl
    · rw [filtfilt_ok K nc.1 nc.2 (removeDC x)
        (by rw [hnclen.1, hnclen.2, removeDC_length]; omega)]
      simp only [ebind_ok, hbandB]
      rw [filtfilt_err K bc.1 bc.2 _
        (by rw [hbclen.1, hbclen.2, K.filtfiltCore_len, removeDC_length]; omega)]
      rfl
  · intro y z hok
    simp only [conditionSignal, notch_filter, bandpass_filter, hnotchB, ebind_ok] at hok
    rcases hff : filtfilt K nc.1 nc.2 (removeDC y) with e | notched
    · rw [hff, ebind_err] at hok
      exact absurd hok (by simp)
    · rw [hff] at hok
      simp only [ebind_ok, hbandB] at hok
      rcases hff2 : filtfilt K bc.1 bc.2 notched with e | banded
      · rw [hff2, ebind_err] at hok
        exact absurd hok (by simp)
      · rw [hff2, ebind_ok] at hok
        injection hok with h1
        rw [← h1, List.length_map, filtfilt_ok_length K _ _ _ _ hff2,
          filtfilt_ok_length K _ _ _ _ hff, removeDC_length]

/-- Concrete kernel instantiation for the witnesses: dummy unit
coefficients of the correct count and an identity zero-phase core. -/
def idKernel : NumKernel :=
  ⟨fun o _ _ _ => (List.replicate (2 * o + 1) 1, List.replicate (2 * o + 1) 1),
   fun _ _ x => x,
   fun o l h bs => by simp,
   fun b a x => rfl⟩

/-- Witness for C8: a 20-sample signal at `fs = 1000` hits the size
error. -/
theorem shortSignalSizeError_witness :
    conditionSignal idKernel 1000 (List.replicate 20 (0 : ℚ)) = .error .sizeError :=
  (shortSignalSizeError idKernel 1000 (List.replicate 20 (0 : ℚ))
    (by norm_num) (by simp)).1

/-- C10: the header-declared sampling rate is never validated against the
fixed 20-450 Hz band-pass: for every `0 < fs ≤ 900` the normalized high
cutoff `450 / (fs/2)` is at or above Nyquist, filter design is invalid, and
the conditioning stage of `process_emg_file` ends in an uncaught exception
(no result, no diagnostic) for every input signal. -/
theorem lowFsDesignFailure (K : NumKernel) (fs : ℕ) (x : List ℚ)
    (h0 : 0 < fs) (h900 : fs ≤ 900) :
    1 ≤ (450 : ℚ) / ((fs : ℚ) / 2)
    ∧ exceptOk (conditionSignal K fs x) = false := by
  have hq0 : (0 : ℚ) < (fs : ℚ) := by exact_mod_cast h0
  have hq9 : ((fs : ℚ)) ≤ 900 := by exact_mod_cast h900
  have hnyq : (0 : ℚ) < (fs : ℚ) / 2 := by linarith
  have hhi : 1 ≤ (450 : ℚ) / ((fs : ℚ) / 2) := by
    rw [le_div_iff₀ hnyq]
    linarith
  refine ⟨hhi, ?_⟩
  have hbandErr : butter K 5 ((20 : ℚ) / ((fs : ℚ) / 2))
      ((450 : ℚ) / ((fs : ℚ) / 2)) false = .error .designError := by
    rw [butter, if_neg]
    rintro ⟨-, -, -, hlt⟩
    linarith
  by_cases hGn : 0 < ((50 : ℚ) - 1) / ((fs : ℚ) / 2)
      ∧ ((50 : ℚ) - 1) / ((fs : ℚ) / 2) < 1
      ∧ 0 < ((50 : ℚ) + 1) / ((fs : ℚ) / 2)
      ∧ ((50 : ℚ) + 1) / ((fs : ℚ) / 2) < 1
  · obtain ⟨nc, hnc⟩ : ∃ p, K.butterCore 2 (((50 : ℚ) - 1) / ((fs : ℚ) / 2))
        (((50 : ℚ) + 1) / ((fs : ℚ) / 2)) true = p := ⟨_, rfl⟩
    have hnotchB : butter K 2 (((50 : ℚ) - 1) / ((fs : ℚ) / 2))
        (((50 : ℚ) + 1) / ((fs : ℚ) / 2)) true = .ok nc := by
      rw [butter, if_pos hGn, hnc]
    simp only [conditionSignal, notch_filter, bandpass_filter, hnotchB, ebind_ok]
    by_cases hsz : (removeDC x).length ≤ 3 * max nc.1.length nc.2.length
    · rw [filtfilt_err K nc.1 nc.2 (removeDC x) hsz]
      rfl
    · rw [filtfilt_ok K nc.1 nc.2 (removeDC x) hsz]
      simp only [ebind_ok, hbandErr, ebind_err]
      rfl
  · have hnotchErr : butter K 2 (((50 : ℚ) - 1) / ((fs : ℚ) / 2))
        (((50 : ℚ) + 1) / ((fs : ℚ) / 2)) true = .error .designError := by
      rw [butter, if_neg hGn]
    simp only [conditionSignal, notch_filter, bandpass_filter, hnotchErr, ebind_err]
    rfl

/-- Witness for C10 at `fs = 500` on the empty signal. -/
theorem lowFsDesignFailure_witness :
    1 ≤ (450 : ℚ) / ((500 : ℚ) / 2)
    ∧ exceptOk (conditionSignal idKernel 500 ([] : List ℚ)) = false := by
  have h := lowFsDesignFailure idKernel 500 ([] : List ℚ) (by norm_num) (by norm_num)
  exact ⟨by norm_num, h.2⟩

end EmgApp
